import Mathlib

/-!
Verification of the correlation-analysis core of `src/main.py`.

The core is `analyze_correlation(df, target_col)`:

* line 43: `numeric_df = df.select_dtypes(include=np.number)`
* lines 46-48: if `target_col not in numeric_df.columns`, warn and return
  `None, None, None` (the `MissingTargetAttribute` condition);
* line 50: `correlation_series = numeric_df.corr()[target_col].sort_values(ascending=False)`
* line 51: `correlation_series = correlation_series.drop(target_col, errors='ignore')`
* line 52: `top_5_abs_corr = correlation_series.abs().sort_values(ascending=False).head(5).index.tolist()`
* line 53: `full_corr_matrix = numeric_df.corr()`

Modelling choices, documented once here:

* Cell values are exact rationals, text, or missing (`NaN`); a column loaded
  from the input table has numeric dtype exactly when every non-missing cell
  is a number, so `select_dtypes(include=np.number)` keeps exactly those
  columns.
* `DataFrame.corr()` (Pearson, `min_periods=1`) computes, for each pair of
  columns, over the rows where both cells are non-missing: the centred sums
  `sxx`, `syy`, `sxy`, and returns `sxy / sqrt(sxx * syy)`, or `NaN` when
  there are no such rows or `sxx * syy == 0` (a zero-variance column).  The
  coefficient `sxy / sqrt(sxx * syy)` is irrational in general, so we
  represent it exactly by the pair `(sxy, sxx * syy)` (structure `Coef`,
  denoting `num / sqrt den2` with `den2 > 0`).  The strictly monotone
  bijection `r ↦ r * |r|` carries `num / sqrt den2` to the rational
  `num * |num| / den2` (`Coef.key`), so order, absolute-value order,
  equality, and the values `0, ±1` of coefficients are all decided exactly
  in `ℚ`; `Coef.absKey = num ^ 2 / den2` is `|r| * |r|`.
* `Series.sort_values(ascending=False)` sorts the non-`NaN` entries in
  descending order and places the `NaN` entries after them, in their original
  order (`na_position='last'`).  Its default `kind='quicksort'` is numpy's
  introsort, which is not stable above the insertion-sort threshold, so the
  relative order of entries with tied values is implementation-defined for
  larger series.  We model the sort as a stable descending insertion sort of
  the defined entries followed by the undefined entries; this fixes one
  admissible tie order, and every theorem below uses only tie-order-independent
  consequences of the sort (it permutes the series, defined keys are
  non-increasing, `NaN` entries come last in original order), which hold for
  any tie order the program may produce.
* `.abs().sort_values(ascending=False)` reorders the entries exactly as
  sorting the original entries by `|r|` descending (same ties, same `NaN`
  placement), so it is modelled as `sort_values` keyed by `Coef.absKey`.
-/

/-- A scalar cell of the input table: a numeric value, text, or missing. -/
inductive Value where
  | num (q : ℚ)
  | str (s : String)
  | missing
deriving DecidableEq

/-- A dataset: an ordered sequence of named columns, each an ordered sequence
of cell values. -/
abbrev Dataset : Type := List (String × List Value)

/-- Numeric dtype test for a column: every non-missing cell is a number. -/
def isNumericCol (vs : List Value) : Bool :=
  vs.all fun v => match v with
    | .str _ => false
    | _ => true

/-- Line 43: `numeric_df = df.select_dtypes(include=np.number)`. -/
def numeric_df (df : Dataset) : Dataset :=
  df.filter fun c => isNumericCol c.2

/-- Column lookup by name (pandas label indexing; first match). -/
def getCol (df : Dataset) (name : String) : Option (List Value) :=
  (df.find? fun c => c.1 == name).map Prod.snd

/-- The pairwise-complete observations of two columns: the rows where both
cells are numbers (pandas drops a row from a pairwise correlation when either
cell is missing). -/
def maskPairs (xs ys : List Value) : List (ℚ × ℚ) :=
  (xs.zip ys).filterMap fun p => match p with
    | (.num a, .num b) => some (a, b)
    | _ => none

/-- An exactly-represented Pearson coefficient: denotes `num / sqrt den2`,
with `den2 > 0` whenever constructed by `pearson`. -/
structure Coef where
  num : ℚ
  den2 : ℚ
deriving DecidableEq

/-- The image of the coefficient `r = num / sqrt den2` under the strictly
monotone bijection `r ↦ r * |r|`; comparing keys compares coefficients. -/
def Coef.key (c : Coef) : ℚ := c.num * |c.num| / c.den2

/-- The image of `|r|` under `r ↦ r * |r|`; comparing these compares the
absolute values of coefficients. -/
def Coef.absKey (c : Coef) : ℚ := c.num ^ 2 / c.den2

/-- The coefficient `num / sqrt den2` equals `1.0` (given `den2 > 0`)
exactly when `num > 0` and `num ^ 2 = den2`. -/
def Coef.isOne (c : Coef) : Prop := 0 < c.num ∧ c.num ^ 2 = c.den2

/-- Arithmetic mean of a list of rationals (`0` on the empty list). -/
def mean (l : List ℚ) : ℚ := l.sum / l.length

/-- Centred sum of squares of the first components: `Σ (xᵢ - x̄)²`. -/
def sxxOf (ps : List (ℚ × ℚ)) : ℚ :=
  (ps.map fun p => (p.1 - mean (ps.map Prod.fst)) ^ 2).sum

/-- Centred sum of squares of the second components: `Σ (yᵢ - ȳ)²`. -/
def syyOf (ps : List (ℚ × ℚ)) : ℚ :=
  (ps.map fun p => (p.2 - mean (ps.map Prod.snd)) ^ 2).sum

/-- Centred sum of products: `Σ (xᵢ - x̄) * (yᵢ - ȳ)`. -/
def sxyOf (ps : List (ℚ × ℚ)) : ℚ :=
  (ps.map fun p => (p.1 - mean (ps.map Prod.fst)) * (p.2 - mean (ps.map Prod.snd))).sum

/-- Pearson correlation of paired observations, as computed by pandas
`corr()`: `NaN` (`none`) when there are no observations or a variance
vanishes, otherwise `sxy / sqrt (sxx * syy)`, represented as `⟨sxy, sxx*syy⟩`. -/
def pearson (ps : List (ℚ × ℚ)) : Option Coef :=
  if ps.length = 0 then none
  else if sxxOf ps * syyOf ps = 0 then none
  else some ⟨sxyOf ps, sxxOf ps * syyOf ps⟩

/-- One entry of `numeric_df.corr()`: the Pearson coefficient of two named
columns over their pairwise-complete rows. -/
def corrEntry (df : Dataset) (a b : String) : Option Coef :=
  match getCol df a, getCol df b with
  | some xs, some ys => pearson (maskPairs xs ys)
  | _, _ => none

/-- Line 53: `full_corr_matrix = numeric_df.corr()`, as an entry function. -/
def full_corr_matrix (df : Dataset) (a b : String) : Option Coef :=
  corrEntry (numeric_df df) a b

/-- Descending comparison of series entries by a rational sort key. -/
def keyGE (k : Coef → ℚ) (p q : String × Coef) : Prop := k q.2 ≤ k p.2

instance (k : Coef → ℚ) : DecidableRel (keyGE k) :=
  fun p q => inferInstanceAs (Decidable (k q.2 ≤ k p.2))

instance (k : Coef → ℚ) : IsTotal (String × Coef) (keyGE k) :=
  ⟨fun p q => le_total (k q.2) (k p.2)⟩

instance (k : Coef → ℚ) : IsTrans (String × Coef) (keyGE k) :=
  ⟨fun _ _ _ hab hbc => le_trans hbc hab⟩

/-- The non-`NaN` entries of a series, with their coefficients. -/
def definedEntries (l : List (String × Option Coef)) : List (String × Coef) :=
  l.filterMap fun p => p.2.map fun c => (p.1, c)

/-- The `NaN` entries of a series, in their original order. -/
def noneEntries (l : List (String × Option Coef)) : List (String × Option Coef) :=
  l.filter fun p => p.2.isNone

/-- `Series.sort_values(ascending=False)` keyed by `k`: stable descending
sort of the defined entries, then the `NaN` entries in original order. -/
def sort_values (k : Coef → ℚ) (l : List (String × Option Coef)) :
    List (String × Option Coef) :=
  (List.insertionSort (keyGE k) (definedEntries l)).map (fun p => (p.1, some p.2))
    ++ noneEntries l

/-- `numeric_df.corr()[target_col]`: the target's column of the correlation
matrix, one entry per column of `numeric_df`, in column order. -/
def target_series (df : Dataset) (target_col : String) : List (String × Option Coef) :=
  (numeric_df df).map fun c => (c.1, corrEntry (numeric_df df) c.1 target_col)

/-- Lines 50-51: the target's correlation series, sorted descending by signed
coefficient, with the target's own entry dropped. -/
def correlation_series (df : Dataset) (target_col : String) :
    List (String × Option Coef) :=
  (sort_values Coef.key (target_series df target_col)).filter fun p => p.1 != target_col

/-- Line 52, before `head(5)`: `correlation_series.abs().sort_values(ascending=False)`,
the series ranked descending by absolute coefficient, `NaN` entries last. -/
def ranked_series (df : Dataset) (target_col : String) :
    List (String × Option Coef) :=
  sort_values Coef.absKey (correlation_series df target_col)

/-- Line 52: `top_5_abs_corr = ....head(5).index.tolist()`. -/
def top_5_abs_corr (df : Dataset) (target_col : String) : List String :=
  ((ranked_series df target_col).take 5).map Prod.fst

/-- The outcome of `analyze_correlation`: either the `MissingTargetAttribute`
condition (the warning at line 47 plus the `None, None, None` return at
line 48), or the triple of results. -/
inductive AnalyzeResult where
  | missingTarget : AnalyzeResult
  | ok (corr_series : List (String × Option Coef))
      (matrix : String → String → Option Coef)
      (top5 : List String) : AnalyzeResult

/-- Lines 42-55: `analyze_correlation(df, target_col)`. -/
def analyze_correlation (df : Dataset) (target_col : String) : AnalyzeResult :=
  if target_col ∈ (numeric_df df).map Prod.fst then
    .ok (correlation_series df target_col) (full_corr_matrix df)
      (top_5_abs_corr df target_col)
  else
    .missingTarget

/-- The numeric values of a column, in row order (its non-missing cells,
for a column of numeric dtype). -/
def numsOf (vs : List Value) : List ℚ :=
  vs.filterMap fun v => match v with
    | .num q => some q
    | _ => none

/-- A small concrete dataset used to instantiate the theorems: target `t`,
a varying column `a`, and a constant column `b` (undefined correlation). -/
def sampleDf : Dataset :=
  [("t", [Value.num 1, Value.num 2]), ("a", [Value.num 2, Value.num 1]),
   ("b", [Value.num 3, Value.num 3])]

/-- A one-column dataset used to instantiate the diagonal theorem. -/
def diagDf : Dataset := [("a", [Value.num 1, Value.num 2])]

/-- A dataset whose only numeric column is the target. -/
def onlyTargetDf : Dataset := [("t", [Value.num 1, Value.num 2]), ("s", [Value.str "x"])]

/-- C1: if the target is not among the numeric columns of the dataset,
`analyze_correlation` signals the `MissingTargetAttribute` condition and
returns no analysis result (the warning-and-`None, None, None` outcome),
rather than raising a fatal error: the function is total and returns the
`missingTarget` outcome. -/
theorem analyze_correlation_missing_target (df : Dataset) (target_col : String)
    (h : target_col ∉ (numeric_df df).map Prod.fst) :
    analyze_correlation df target_col = AnalyzeResult.missingTarget := by
  simp [analyze_correlation, h]

theorem analyze_correlation_missing_target_witness :
    analyze_correlation [("a", [Value.num 1])] "z" = AnalyzeResult.missingTarget :=
  analyze_correlation_missing_target [("a", [Value.num 1])] "z" (by decide)

/-- C2: numeric extraction keeps exactly the columns whose non-missing values
are all numbers, drops every other column, and preserves row order (columns
survive unchanged) and the relative order of surviving columns (`numeric_df df`
is a sublist of `df`). -/
theorem numeric_df_spec (df : Dataset) :
    (numeric_df df).Sublist df ∧
      ∀ c : String × List Value,
        (c ∈ numeric_df df ↔
          c ∈ df ∧ ∀ v ∈ c.2, v ≠ Value.missing → ∃ q : ℚ, v = Value.num q) := by
  constructor
  · exact List.filter_sublist df
  · intro c
    rw [numeric_df, List.mem_filter]
    constructor
    · rintro ⟨hc, hnum⟩
      refine ⟨hc, fun v hv hmiss => ?_⟩
      have := List.all_eq_true.mp hnum v hv
      cases v with
      | num q => exact ⟨q, rfl⟩
      | str s => simp at this
      | missing => exact absurd rfl hmiss
    · rintro ⟨hc, hval⟩
      refine ⟨hc, List.all_eq_true.mpr fun v hv => ?_⟩
      cases v with
      | num q => rfl
      | str s =>
        rcases hval (Value.str s) hv (by simp) with ⟨q, hq⟩
        cases hq
      | missing => rfl

/-! ### Symmetry of the correlation matrix -/

theorem maskPairs_swap (xs ys : List Value) :
    maskPairs ys xs = (maskPairs xs ys).map Prod.swap := by
  induction xs generalizing ys with
  | nil => cases ys <;> simp [maskPairs]
  | cons x xs ih =>
    cases ys with
    | nil => simp [maskPairs]
    | cons y ys =>
      have h := ih ys
      cases x <;> cases y <;>
        simpa [maskPairs, List.zip_cons_cons, List.filterMap_cons] using h

theorem sxxOf_swap (ps : List (ℚ × ℚ)) : sxxOf (ps.map Prod.swap) = syyOf ps := by
  simp [sxxOf, syyOf, List.map_map, Function.comp_def]

theorem syyOf_swap (ps : List (ℚ × ℚ)) : syyOf (ps.map Prod.swap) = sxxOf ps := by
  simp [sxxOf, syyOf, List.map_map, Function.comp_def]

theorem sxyOf_swap (ps : List (ℚ × ℚ)) : sxyOf (ps.map Prod.swap) = sxyOf ps := by
  simp only [sxyOf, List.map_map, Function.comp_def, Prod.fst_swap, Prod.snd_swap]
  congr 1
  exact List.map_congr_left fun p _ => mul_comm _ _

theorem pearson_swap (ps : List (ℚ × ℚ)) :
    pearson (ps.map Prod.swap) = pearson ps := by
  simp only [pearson, List.length_map, sxxOf_swap, syyOf_swap, sxyOf_swap]
  rw [mul_comm (syyOf ps)]

theorem corrEntry_symm (df : Dataset) (a b : String) :
    corrEntry df a b = corrEntry df b a := by
  cases hga : getCol df a <;> cases hgb : getCol df b <;>
    simp only [corrEntry, hga, hgb]
  rw [maskPairs_swap, pearson_swap]

/-- C6: the returned `CorrelationMatrix` is symmetric: for every pair of
attributes `a` and `b`, `matrix[a][b] = matrix[b][a]`. -/
theorem full_corr_matrix_symmetric (df : Dataset) (a b : String) :
    full_corr_matrix df a b = full_corr_matrix df b a :=
  corrEntry_symm (numeric_df df) a b

/-! ### The sorted series: permutation, ordering, stability -/

theorem mem_noneEntries {l : List (String × Option Coef)} {p : String × Option Coef}
    (hp : p ∈ noneEntries l) : p.2 = none := by
  have := (List.mem_filter.mp hp).2
  exact Option.isNone_iff_eq_none.mp this

theorem defined_none_split_perm (l : List (String × Option Coef)) :
    ((definedEntries l).map (fun p => (p.1, some p.2)) ++ noneEntries l).Perm l := by
  induction l with
  | nil => simp [definedEntries, noneEntries]
  | cons p t ih =>
    cases hp : p.2 with
    | some c =>
      have hpe : (p.1, some c) = p := by rw [← hp]
      simp only [definedEntries, noneEntries, List.filterMap_cons, hp, Option.map_some',
        List.filter_cons, Option.isNone_some, List.map_cons, List.cons_append, hpe]
      exact (ih.cons p)
    | none =>
      simp only [definedEntries, noneEntries, List.filterMap_cons, hp, Option.map_none',
        List.filter_cons, Option.isNone_none, ite_true]
      exact List.Perm.trans List.perm_middle (ih.cons p)

theorem sort_values_perm (k : Coef → ℚ) (l : List (String × Option Coef)) :
    (sort_values k l).Perm l := by
  unfold sort_values
  refine List.Perm.trans (List.Perm.append_right _ ?_) (defined_none_split_perm l)
  exact (List.perm_insertionSort (keyGE k) (definedEntries l)).map _

theorem pairwise_sort_values (k : Coef → ℚ) (l : List (String × Option Coef)) :
    (sort_values k l).Pairwise (fun p q =>
      (p.2 = none → q.2 = none) ∧
      ∀ c d : Coef, p.2 = some c → q.2 = some d → k d ≤ k c) := by
  unfold sort_values
  rw [List.pairwise_append]
  refine ⟨?_, ?_, ?_⟩
  · rw [List.pairwise_map]
    refine (List.sorted_insertionSort (keyGE k) (definedEntries l)).imp ?_
    intro a b hab
    refine ⟨fun h => absurd h (by simp), fun c d hc hd => ?_⟩
    cases Option.some.inj hc
    cases Option.some.inj hd
    exact hab
  · refine List.pairwise_of_forall_mem_list ?_
    intro p hp q hq
    refine ⟨fun _ => mem_noneEntries hq, fun c d hc _ => ?_⟩
    rw [mem_noneEntries hp] at hc
    cases hc
  · intro p hp q hq
    rcases List.mem_map.mp hp with ⟨p', _, rfl⟩
    refine ⟨fun h => absurd h (by simp), fun c d _ hd => ?_⟩
    rw [mem_noneEntries hq] at hd
    cases hd

theorem definedEntries_cons_some {p : String × Option Coef} {d : Coef}
    (hp : p.2 = some d) (t : List (String × Option Coef)) :
    definedEntries (p :: t) = (p.1, d) :: definedEntries t := by
  unfold definedEntries
  rw [List.filterMap_cons, hp]
  rfl

theorem definedEntries_cons_none {p : String × Option Coef}
    (hp : p.2 = none) (t : List (String × Option Coef)) :
    definedEntries (p :: t) = definedEntries t := by
  unfold definedEntries
  rw [List.filterMap_cons, hp]
  rfl

theorem noneEntries_cons_some {p : String × Option Coef} {d : Coef}
    (hp : p.2 = some d) (t : List (String × Option Coef)) :
    noneEntries (p :: t) = noneEntries t := by
  unfold noneEntries
  rw [List.filter_cons, hp]
  rfl

theorem noneEntries_cons_none {p : String × Option Coef}
    (hp : p.2 = none) (t : List (String × Option Coef)) :
    noneEntries (p :: t) = p :: noneEntries t := by
  unfold noneEntries
  rw [List.filter_cons, hp]
  rfl

/-! ### Variance positivity for non-constant columns -/

theorem all_zero_of_nonneg_sum_zero {l : List ℚ} (h : ∀ x ∈ l, 0 ≤ x)
    (hs : l.sum = 0) : ∀ x ∈ l, x = 0 := by
  induction l with
  | nil => simp
  | cons a t ih =>
    rw [List.sum_cons] at hs
    have ha : 0 ≤ a := h a (List.mem_cons_self a t)
    have ht : 0 ≤ t.sum := List.sum_nonneg fun x hx => h x (List.mem_cons_of_mem a hx)
    have ha0 : a = 0 := le_antisymm (by linarith) ha
    have hts : t.sum = 0 := by linarith
    intro x hx
    rcases List.mem_cons.mp hx with rfl | hxt
    · exact ha0
    · exact ih (fun z hz => h z (List.mem_cons_of_mem a hz)) hts x hxt

theorem sum_sq_sub_mean_pos (l : List ℚ) {x y : ℚ} (hx : x ∈ l) (hy : y ∈ l)
    (hxy : x ≠ y) : 0 < (l.map fun q => (q - mean l) ^ 2).sum := by
  have hnn : ∀ z ∈ (l.map fun q => (q - mean l) ^ 2), 0 ≤ z := by
    intro z hz
    rcases List.mem_map.mp hz with ⟨q, _, rfl⟩
    exact sq_nonneg _
  rcases (List.sum_nonneg hnn).lt_or_eq with hlt | heq
  · exact hlt
  · exfalso
    have hall := all_zero_of_nonneg_sum_zero hnn heq.symm
    have hxm : x - mean l = 0 := by
      have := hall _ (List.mem_map_of_mem (fun q => (q - mean l) ^ 2) hx)
      exact pow_eq_zero_iff (n := 2) (by norm_num) |>.mp this
    have hym : y - mean l = 0 := by
      have := hall _ (List.mem_map_of_mem (fun q => (q - mean l) ^ 2) hy)
      exact pow_eq_zero_iff (n := 2) (by norm_num) |>.mp this
    exact hxy (by linarith [sub_eq_zero.mp hxm, sub_eq_zero.mp hym])

theorem maskPairs_self (vs : List Value) :
    maskPairs vs vs = (numsOf vs).map fun q => (q, q) := by
  induction vs with
  | nil => simp [maskPairs, numsOf]
  | cons v t ih =>
    cases v <;> simpa [maskPairs, numsOf, List.zip_cons_cons, List.filterMap_cons] using ih

theorem map_dup_fst (l : List ℚ) : ((l.map fun q => ((q, q) : ℚ × ℚ)).map Prod.fst) = l := by
  simp [List.map_map, Function.comp_def]

theorem map_dup_snd (l : List ℚ) : ((l.map fun q => ((q, q) : ℚ × ℚ)).map Prod.snd) = l := by
  simp [List.map_map, Function.comp_def]

theorem sxxOf_dup (l : List ℚ) :
    sxxOf (l.map fun q => (q, q)) = (l.map fun q => (q - mean l) ^ 2).sum := by
  rw [sxxOf, map_dup_fst, List.map_map]
  rfl

theorem syyOf_dup (l : List ℚ) :
    syyOf (l.map fun q => (q, q)) = (l.map fun q => (q - mean l) ^ 2).sum := by
  rw [syyOf, map_dup_snd, List.map_map]
  rfl

theorem sxyOf_dup (l : List ℚ) :
    sxyOf (l.map fun q => (q, q)) = (l.map fun q => (q - mean l) ^ 2).sum := by
  rw [sxyOf, map_dup_fst, map_dup_snd, List.map_map]
  congr 1
  refine List.map_congr_left fun q _ => ?_
  rw [Function.comp_apply]
  ring

/-! ### Claims about the ranking and the correlation vector -/

/-- C3: for a target present in the numeric columns, the ranking that forms
`TopKSelection` (`ranked_series`, whose 5-entry prefix of names is the
returned `top5`) puts every undefined/`NaN` entry (zero-variance column)
after every entry with a defined coefficient — so an undefined entry is never
selected ahead of a defined one — and its defined entries are ordered
non-increasing in absolute coefficient value (`Coef.absKey` compares `|r|`). -/
theorem nan_ranked_last_top5 (df : Dataset) (t : String)
    (h : t ∈ (numeric_df df).map Prod.fst) :
    ∃ vec M top5, analyze_correlation df t = AnalyzeResult.ok vec M top5 ∧
      top5 = ((ranked_series df t).take 5).map Prod.fst ∧
      ranked_series df t = sort_values Coef.absKey vec ∧
      (ranked_series df t).Pairwise (fun p q =>
        (p.2 = none → q.2 = none) ∧
        ∀ c d : Coef, p.2 = some c → q.2 = some d → d.absKey ≤ c.absKey) := by
  refine ⟨correlation_series df t, full_corr_matrix df, top_5_abs_corr df t,
    ?_, rfl, rfl, ?_⟩
  · unfold analyze_correlation
    rw [if_pos h]
  · exact pairwise_sort_values Coef.absKey (correlation_series df t)

theorem nan_ranked_last_top5_witness :
    ∃ vec M top5, analyze_correlation sampleDf "t" = AnalyzeResult.ok vec M top5 ∧
      top5 = ((ranked_series sampleDf "t").take 5).map Prod.fst ∧
      ranked_series sampleDf "t" = sort_values Coef.absKey vec ∧
      (ranked_series sampleDf "t").Pairwise (fun p q =>
        (p.2 = none → q.2 = none) ∧
        ∀ c d : Coef, p.2 = some c → q.2 = some d → d.absKey ≤ c.absKey) :=
  nan_ranked_last_top5 sampleDf "t" (by decide)

/-- C5: for a target present in the numeric columns, the returned
`TopKSelection` has length `min 5 |CorrelationVector|` and each of its names
is a key of the returned `CorrelationVector`. -/
theorem top5_length_and_keys (df : Dataset) (t : String)
    (h : t ∈ (numeric_df df).map Prod.fst) :
    ∃ vec M top5, analyze_correlation df t = AnalyzeResult.ok vec M top5 ∧
      top5.length = min 5 vec.length ∧
      ∀ n ∈ top5, ∃ co : Option Coef, (n, co) ∈ vec := by
  refine ⟨correlation_series df t, full_corr_matrix df, top_5_abs_corr df t,
    ?_, ?_, ?_⟩
  · unfold analyze_correlation
    rw [if_pos h]
  · rw [top_5_abs_corr, List.length_map, List.length_take, ranked_series,
      (sort_values_perm Coef.absKey (correlation_series df t)).length_eq]
  · intro n hn
    rw [top_5_abs_corr] at hn
    rcases List.mem_map.mp hn with ⟨p, hp, rfl⟩
    have hr : p ∈ ranked_series df t := List.mem_of_mem_take hp
    rw [ranked_series] at hr
    have hv := (sort_values_perm Coef.absKey (correlation_series df t)).mem_iff.mp hr
    exact ⟨p.2, by rwa [Prod.mk.eta]⟩

theorem top5_length_and_keys_witness :
    ∃ vec M top5, analyze_correlation sampleDf "t" = AnalyzeResult.ok vec M top5 ∧
      top5.length = min 5 vec.length ∧
      ∀ n ∈ top5, ∃ co : Option Coef, (n, co) ∈ vec :=
  top5_length_and_keys sampleDf "t" (by decide)

/-- C8: for a target present in the numeric columns, the returned
`CorrelationVector` is ordered by descending signed coefficient value
(`Coef.key` compares signed coefficients, not absolute values): any defined
entry is greater than or equal to every defined entry after it. -/
theorem correlation_series_sorted_signed (df : Dataset) (t : String)
    (h : t ∈ (numeric_df df).map Prod.fst) :
    ∃ vec M top5, analyze_correlation df t = AnalyzeResult.ok vec M top5 ∧
      vec.Pairwise (fun p q =>
        ∀ c d : Coef, p.2 = some c → q.2 = some d → d.key ≤ c.key) := by
  refine ⟨correlation_series df t, full_corr_matrix df, top_5_abs_corr df t, ?_, ?_⟩
  · unfold analyze_correlation
    rw [if_pos h]
  · have hp := pairwise_sort_values Coef.key (target_series df t)
    have hsub : List.Sublist (correlation_series df t)
        (sort_values Coef.key (target_series df t)) := by
      rw [correlation_series]
      exact List.filter_sublist _
    exact ((hp.sublist hsub).imp fun hpq => hpq.2)

theorem correlation_series_sorted_signed_witness :
    ∃ vec M top5, analyze_correlation sampleDf "t" = AnalyzeResult.ok vec M top5 ∧
      vec.Pairwise (fun p q =>
        ∀ c d : Coef, p.2 = some c → q.2 = some d → d.key ≤ c.key) :=
  correlation_series_sorted_signed sampleDf "t" (by decide)

/-- C4: for a target present in the numeric columns, the returned
`CorrelationVector` maps each numeric attribute other than the target to the
`(target, attribute)` entry of the returned `CorrelationMatrix` — every such
attribute appears with that value, and every entry's value is that matrix
entry — and the target itself never appears as a key. -/
theorem correlation_vector_matches_matrix (df : Dataset) (t : String)
    (h : t ∈ (numeric_df df).map Prod.fst) :
    ∃ vec M top5, analyze_correlation df t = AnalyzeResult.ok vec M top5 ∧
      (∀ a, a ∈ (numeric_df df).map Prod.fst → a ≠ t → (a, M t a) ∈ vec) ∧
      (∀ b co, (b, co) ∈ vec → co = M t b ∧ b ≠ t) := by
  refine ⟨correlation_series df t, full_corr_matrix df, top_5_abs_corr df t,
    ?_, ?_, ?_⟩
  · unfold analyze_correlation
    rw [if_pos h]
  · intro a ha hat
    rcases List.mem_map.mp ha with ⟨col, hcol, rfl⟩
    have hser : (col.1, corrEntry (numeric_df df) col.1 t) ∈ target_series df t :=
      List.mem_map.mpr ⟨col, hcol, rfl⟩
    have hsorted : (col.1, corrEntry (numeric_df df) col.1 t) ∈
        sort_values Coef.key (target_series df t) :=
      (sort_values_perm Coef.key (target_series df t)).mem_iff.mpr hser
    have hMsym : full_corr_matrix df t col.1 = corrEntry (numeric_df df) col.1 t :=
      corrEntry_symm (numeric_df df) t col.1
    rw [correlation_series]
    rw [hMsym]
    exact List.mem_filter.mpr ⟨hsorted, bne_iff_ne.mpr hat⟩
  · intro b co hbc
    rw [correlation_series] at hbc
    obtain ⟨hsorted, hne⟩ := List.mem_filter.mp hbc
    have hser := (sort_values_perm Coef.key (target_series df t)).mem_iff.mp hsorted
    rw [target_series] at hser
    rcases List.mem_map.mp hser with ⟨col, _, heq⟩
    obtain ⟨hb, hco⟩ := Prod.mk.injEq .. ▸ heq
    refine ⟨?_, bne_iff_ne.mp hne⟩
    rw [← hco, ← hb]
    exact (corrEntry_symm (numeric_df df) t col.1).symm

theorem correlation_vector_matches_matrix_witness :
    ∃ vec M top5, analyze_correlation sampleDf "t" = AnalyzeResult.ok vec M top5 ∧
      (∀ a, a ∈ (numeric_df sampleDf).map Prod.fst → a ≠ "t" → (a, M "t" a) ∈ vec) ∧
      (∀ b co, (b, co) ∈ vec → co = M "t" b ∧ b ≠ "t") :=
  correlation_vector_matches_matrix sampleDf "t" (by decide)

/-- C7: the diagonal entry of the returned `CorrelationMatrix` for a numeric
attribute whose observed values are not all equal (non-zero variance) is a
defined coefficient equal to `1.0` (`Coef.isOne`). -/
theorem corr_matrix_diag_one (df : Dataset) (a : String) (vs : List Value)
    (hcol : getCol (numeric_df df) a = some vs)
    {x y : ℚ} (hx : x ∈ numsOf vs) (hy : y ∈ numsOf vs) (hxy : x ≠ y) :
    ∃ c : Coef, full_corr_matrix df a a = some c ∧ c.isOne := by
  have hs : 0 < ((numsOf vs).map fun q => (q - mean (numsOf vs)) ^ 2).sum :=
    sum_sq_sub_mean_pos (numsOf vs) hx hy hxy
  have hlen : ¬ ((numsOf vs).map fun q => ((q, q) : ℚ × ℚ)).length = 0 := by
    rw [List.length_map]
    intro h0
    exact List.ne_nil_of_mem hx (List.length_eq_zero.mp h0)
  refine ⟨⟨((numsOf vs).map fun q => (q - mean (numsOf vs)) ^ 2).sum,
    ((numsOf vs).map fun q => (q - mean (numsOf vs)) ^ 2).sum *
      ((numsOf vs).map fun q => (q - mean (numsOf vs)) ^ 2).sum⟩, ?_, hs, by ring⟩
  simp only [full_corr_matrix, corrEntry, hcol]
  rw [maskPairs_self, pearson, if_neg hlen, sxxOf_dup, syyOf_dup, sxyOf_dup,
    if_neg (mul_ne_zero (ne_of_gt hs) (ne_of_gt hs))]

theorem corr_matrix_diag_one_witness :
    ∃ c : Coef, full_corr_matrix diagDf "a" "a" = some c ∧ c.isOne :=
  corr_matrix_diag_one diagDf "a" [Value.num 1, Value.num 2] (by decide)
    (x := 1) (y := 2) (by decide) (by decide) (by decide)

/-- C10: when the only numeric column is the target itself,
`analyze_correlation` succeeds without signalling an error and returns an
empty `CorrelationVector` and an empty `TopKSelection`, together with the
(1×1) correlation matrix of the single-column numeric dataset. -/
theorem analyze_only_target_column (df : Dataset) (t : String)
    (h : (numeric_df df).map Prod.fst = [t]) :
    analyze_correlation df t =
      AnalyzeResult.ok [] (full_corr_matrix df) [] := by
  have ht : t ∈ (numeric_df df).map Prod.fst := by
    rw [h]
    exact List.mem_singleton_self t
  have hser : target_series df t = [(t, corrEntry (numeric_df df) t t)] := by
    rw [target_series]
    cases hnd : numeric_df df with
    | nil => rw [hnd] at h; simp at h
    | cons c rest =>
      rw [hnd] at h
      simp only [List.map_cons, List.cons.injEq] at h
      obtain ⟨hc1, hrest⟩ := h
      rw [List.map_eq_nil_iff.mp hrest, List.map_cons, List.map_nil, hc1]
  have hvec : correlation_series df t = [] := by
    rw [correlation_series, hser]
    cases he : corrEntry (numeric_df df) t t with
    | some c =>
      rw [sort_values, definedEntries_cons_some (p := (t, some c)) rfl,
        noneEntries_cons_some (p := (t, some c)) rfl]
      simp [definedEntries, noneEntries, List.insertionSort, List.filter_cons]
    | none =>
      rw [sort_values, definedEntries_cons_none (p := (t, (none : Option Coef))) rfl,
        noneEntries_cons_none (p := (t, (none : Option Coef))) rfl]
      simp [definedEntries, noneEntries, List.insertionSort, List.filter_cons]
  have htop : top_5_abs_corr df t = [] := by
    rw [top_5_abs_corr, ranked_series, hvec]
    rfl
  rw [analyze_correlation, if_pos ht, hvec, htop]

theorem analyze_only_target_column_witness :
    analyze_correlation onlyTargetDf "t" =
      AnalyzeResult.ok [] (full_corr_matrix onlyTargetDf) [] :=
  analyze_only_target_column onlyTargetDf "t" (by decide)
